import Mathlib

/-!
Verification of the two plotting utilities of the repository:
src/nils/conventional_propulsive_motor/draw_zigzag.py and
src/nils/conventional_propulsive_motor/plot_lattice_hex.py.

The Python float arithmetic is embedded as exact real arithmetic.  A Python
exception is modelled by an explicit error value; the list of points (or
strokes) handed to the plotting surface is returned as data.
-/

noncomputable section

/-- The Python exceptions that the two scripts can raise.  Python
raises OverflowError when converting an infinite float to int, ValueError when
converting a NaN float to int or when a message-carrying ValueError is thrown,
ZeroDivisionError on float division of a plain Python float by zero, and
IndexError on an out-of-bounds numpy index. -/
inductive PyError where
  | valueError (msg : String)
  | zeroDivisionError
  | overflowError
  | indexError
deriving DecidableEq

/-- numpy.linspace(a, b, n): n evenly spaced samples from a to b inclusive
(for n = 1 numpy returns the single sample a, matching the division-by-zero
convention of real division in Lean). -/
def linspace (a b : ℝ) (n : ℕ) : List ℝ :=
  (List.range n).map (fun i : ℕ => a + (b - a) * (i : ℝ) / ((n - 1 : ℕ) : ℝ))

/-- numpy.linspace(a, b, n, endpoint=False): n evenly spaced samples from a
towards b, excluding b itself. -/
def linspaceNoEnd (a b : ℝ) (n : ℕ) : List ℝ :=
  (List.range n).map (fun i : ℕ => a + (b - a) * (i : ℝ) / (n : ℝ))

/-- numpy.hypot(dx, dy): the Euclidean length of the vector (dx, dy). -/
def hypot (dx dy : ℝ) : ℝ :=
  Real.sqrt (dx ^ 2 + dy ^ 2)

/-! ## draw_zigzag.py

draw_zigzag(ax, start, end, pitch, fraction_zigzag, amplitude, color) draws a
single polyline on the axis.  The parameter named end in Python is named e
here because end is a Lean keyword.  The axis, color and linewidth arguments
have no geometric content and are omitted. -/

/-- Line 33: straight_frac = (1 - fraction_zigzag) / 2.0 -/
def straightFrac (fraction_zigzag : ℝ) : ℝ :=
  (1 - fraction_zigzag) / 2

/-- Line 35: p_zig_start, the start of the zigzag region. -/
def pZigStart (start e : ℝ × ℝ) (fraction_zigzag : ℝ) : ℝ × ℝ :=
  (start.1 + straightFrac fraction_zigzag * (e.1 - start.1),
   start.2 + straightFrac fraction_zigzag * (e.2 - start.2))

/-- Line 36: p_zig_end, the end of the zigzag region. -/
def pZigEnd (start e : ℝ × ℝ) (fraction_zigzag : ℝ) : ℝ × ℝ :=
  (start.1 + (1 - straightFrac fraction_zigzag) * (e.1 - start.1),
   start.2 + (1 - straightFrac fraction_zigzag) * (e.2 - start.2))

/-- Line 39: L_zig, the length of the zigzag region. -/
def lZig (start e : ℝ × ℝ) (fraction_zigzag : ℝ) : ℝ :=
  hypot ((pZigEnd start e fraction_zigzag).1 - (pZigStart start e fraction_zigzag).1)
        ((pZigEnd start e fraction_zigzag).2 - (pZigStart start e fraction_zigzag).2)

/-- Lines 42-44: n_half = int(np.floor(L_zig / pitch)), clamped below to 1. -/
def nHalf (start e : ℝ × ℝ) (pitch fraction_zigzag : ℝ) : ℤ :=
  let n0 := ⌊lZig start e fraction_zigzag / pitch⌋
  if n0 < 1 then 1 else n0

/-- Line 47: num_points_zig = n_half + 1. -/
def numPointsZig (start e : ℝ × ℝ) (pitch fraction_zigzag : ℝ) : ℕ :=
  (nHalf start e pitch fraction_zigzag).toNat + 1

/-- Lines 48-52: the baseline points of the zigzag region, evenly spaced
along the segment from p_zig_start to p_zig_end. -/
def zigBaseline (start e : ℝ × ℝ) (pitch fraction_zigzag : ℝ) : List (ℝ × ℝ) :=
  (linspace 0 1 (numPointsZig start e pitch fraction_zigzag)).map
    (fun t => ((pZigStart start e fraction_zigzag).1 +
                 t * ((pZigEnd start e fraction_zigzag).1 - (pZigStart start e fraction_zigzag).1),
               (pZigStart start e fraction_zigzag).2 +
                 t * ((pZigEnd start e fraction_zigzag).2 - (pZigStart start e fraction_zigzag).2)))

/-- Line 57: perp_x = -dy / L_total. -/
def perpX (start e : ℝ × ℝ) : ℝ :=
  -(e.2 - start.2) / hypot (e.1 - start.1) (e.2 - start.2)

/-- Line 58: perp_y = dx / L_total. -/
def perpY (start e : ℝ × ℝ) : ℝ :=
  (e.1 - start.1) / hypot (e.1 - start.1) (e.2 - start.2)

/-- Lines 61-66: the in-place update of the point at index i.  Only
odd-indexed points move; the sign is +1 when (i / 2) is even, else -1. -/
def zigDisplace (amplitude px py : ℝ) (i : ℕ) (p : ℝ × ℝ) : ℝ × ℝ :=
  if i % 2 = 1 then
    let sign : ℝ := if (i / 2) % 2 = 0 then 1 else -1
    (p.1 + amplitude * sign * px, p.2 + amplitude * sign * py)
  else p

/-- Lines 61-66: the zigzag sub-path after the displacement loop. -/
def zigPoints (start e : ℝ × ℝ) (pitch fraction_zigzag amplitude : ℝ) : List (ℝ × ℝ) :=
  (zigBaseline start e pitch fraction_zigzag).enum.map
    (fun ip => zigDisplace amplitude (perpX start e) (perpY start e) ip.1 ip.2)

/-- Lines 69-72: the five sample points of the straight lead-in segment. -/
def leftPoints (start e : ℝ × ℝ) (fraction_zigzag : ℝ) : List (ℝ × ℝ) :=
  (linspace 0 1 5).map
    (fun t => (start.1 + t * ((pZigStart start e fraction_zigzag).1 - start.1),
               start.2 + t * ((pZigStart start e fraction_zigzag).2 - start.2)))

/-- Lines 74-76: the five sample points of the straight lead-out segment. -/
def rightPoints (start e : ℝ × ℝ) (fraction_zigzag : ℝ) : List (ℝ × ℝ) :=
  (linspace 0 1 5).map
    (fun t => ((pZigEnd start e fraction_zigzag).1 + t * (e.1 - (pZigEnd start e fraction_zigzag).1),
               (pZigEnd start e fraction_zigzag).2 + t * (e.2 - (pZigEnd start e fraction_zigzag).2)))

/-- Lines 79-80: x_full, y_full = left[:-1] ++ zig ++ right[1:]. -/
def fullPath (start e : ℝ × ℝ) (pitch fraction_zigzag amplitude : ℝ) : List (ℝ × ℝ) :=
  (leftPoints start e fraction_zigzag).dropLast
    ++ zigPoints start e pitch fraction_zigzag amplitude
    ++ (rightPoints start e fraction_zigzag).tail

/-- draw_zigzag (lines 24-82).  The result is the polyline handed to ax.plot,
or the exception raised.  Control flow of the source:
line 42 computes int(np.floor(L_zig / pitch)); when pitch == 0 the float
division yields NaN (if L_zig == 0) or infinity, so the int conversion raises
ValueError or OverflowError before anything is drawn.  Line 55 returns without
drawing when L_total == 0.  Otherwise line 82 plots the full path. -/
def draw_zigzag (start e : ℝ × ℝ) (pitch fraction_zigzag amplitude : ℝ) :
    Except PyError (List (ℝ × ℝ)) :=
  if pitch = 0 then
    if lZig start e fraction_zigzag = 0 then
      Except.error (PyError.valueError "cannot convert float NaN to integer")
    else
      Except.error PyError.overflowError
  else if hypot (e.1 - start.1) (e.2 - start.2) = 0 then
    Except.ok []
  else
    Except.ok (fullPath start e pitch fraction_zigzag amplitude)

/-! ## plot_lattice_hex.py

plot_lattice_hex(fig, ax, r_in, r_out, h, w, d, angle_start, angle_end, alpha)
draws a sequence of strokes on the axis.  fig, ax, d and alpha carry no
geometric content and are omitted.  The result is the list of strokes drawn
before the call returned or raised, paired with the exception raised, if any:
the second component is none exactly when the call returned normally. -/

/-- One ax.plot call of plot_lattice_hex, tagged by the source line that
issued it: a ring boundary arc (lines 43-44), one radial strut of the
two-row plot of line 59, or a sector boundary radius (lines 62-66).  Every
stroke carries the exact coordinate list handed to ax.plot. -/
inductive Stroke where
  | arc (pts : List (ℝ × ℝ))
  | strut (pts : List (ℝ × ℝ))
  | boundary (pts : List (ℝ × ℝ))

/-- Line 34: angles_fine = np.linspace(angle_start, angle_end, 300). -/
def anglesFine (angle_start angle_end : ℝ) : List ℝ :=
  linspace angle_start angle_end 300

/-- Lines 43-44: the sampled points of the boundary arc of radius r. -/
def arcPts (r angle_start angle_end : ℝ) : List (ℝ × ℝ) :=
  (anglesFine angle_start angle_end).map (fun a => (r * Real.cos a, r * Real.sin a))

/-- Line 40: r_mid = 0.5 * (r1 + r2). -/
def rMid (r1 r2 : ℝ) : ℝ :=
  (r1 + r2) / 2

/-- Lines 47-48: n_arc = int(np.floor((angle_end - angle_start) / dtheta_est))
with dtheta_est = w / r_mid. -/
def nArc (angle_start angle_end w r1 r2 : ℝ) : ℤ :=
  ⌊(angle_end - angle_start) / (w / rMid r1 r2)⌋

/-- Lines 55-66: the two endpoints of the radial line at angle a between the
radii r1 and r2 (also the shape of the two sector boundary radii). -/
def strutPts (r1 r2 a : ℝ) : List (ℝ × ℝ) :=
  [(r1 * Real.cos a, r1 * Real.sin a), (r2 * Real.cos a, r2 * Real.sin a)]

/-- One iteration of the ring loop (lines 36-66) for the ring (r1, r2): the
strokes it draws and the exception it raises, if any.  The two boundary arcs
are drawn first (lines 43-44).  When dtheta_est = w / r_mid is zero (w == 0
or r_mid == 0, where Python float division produces an infinity or NaN), the
int conversion of line 48 or the division of line 49 raises before any radial
line is drawn; when n_arc == 0, dtheta = ... / n_arc (line 49) raises
ZeroDivisionError; when n_arc < 0, np.linspace of line 52 raises ValueError;
otherwise the n_arc radial struts and the two sector boundary radii follow. -/
def ringDraws (angle_start angle_end w r1 r2 : ℝ) : List Stroke × Option PyError :=
  let arcs := [Stroke.arc (arcPts r1 angle_start angle_end),
               Stroke.arc (arcPts r2 angle_start angle_end)]
  if w / rMid r1 r2 = 0 then
    (arcs, some PyError.overflowError)
  else if nArc angle_start angle_end w r1 r2 = 0 then
    (arcs, some PyError.zeroDivisionError)
  else if nArc angle_start angle_end w r1 r2 < 0 then
    (arcs, some (PyError.valueError "Number of samples must be non-negative"))
  else
    (arcs
      ++ (linspaceNoEnd angle_start angle_end (nArc angle_start angle_end w r1 r2).toNat).map
           (fun a => Stroke.strut (strutPts r1 r2 a))
      ++ [Stroke.boundary (strutPts r1 r2 angle_start),
          Stroke.boundary (strutPts r1 r2 angle_end)], none)

/-- Line 28: num_rings = int(np.floor((r_out - r_in) / h)). -/
def numRings (r_in r_out h : ℝ) : ℤ :=
  ⌊(r_out - r_in) / h⌋

/-- Lines 28-31: the ring boundary radii.  r_values = r_in + arange(num_rings
+ 1) * h, with r_out appended when the last value falls short of r_out.
When h == 0 the float division of line 28 yields an infinity or NaN and the
int conversion raises; when num_rings + 1 <= 0 the arange is empty and the
r_values[-1] access of line 30 raises IndexError. -/
def rValues (r_in r_out h : ℝ) : Except PyError (List ℝ) :=
  if h = 0 then
    Except.error PyError.overflowError
  else
    let r0 := (List.range (numRings r_in r_out h + 1).toNat).map (fun i => r_in + (i : ℕ) * h)
    match r0.getLast? with
    | none => Except.error PyError.indexError
    | some lastR => Except.ok (if lastR < r_out then r0 ++ [r_out] else r0)

/-- Lines 36-66: the ring loop over consecutive pairs of r_values.  An
exception raised inside an iteration aborts the loop; the strokes already
drawn remain drawn. -/
def latticeLoop (angle_start angle_end w : ℝ) : List ℝ → List Stroke × Option PyError
  | r1 :: r2 :: rest =>
      match ringDraws angle_start angle_end w r1 r2 with
      | (ops, some err) => (ops, some err)
      | (ops, none) =>
          let next := latticeLoop angle_start angle_end w (r2 :: rest)
          (ops ++ next.1, next.2)
  | _ => ([], none)

/-- plot_lattice_hex (lines 10-68).  Line 24 validates the angle range before
anything else; then the radii are prepared (lines 28-31) and the ring loop
runs (lines 36-66). -/
def plot_lattice_hex (r_in r_out h w angle_start angle_end : ℝ) :
    List Stroke × Option PyError :=
  if angle_start ≥ angle_end then
    ([], some (PyError.valueError "angle_start must be less than angle_end"))
  else
    match rValues r_in r_out h with
    | Except.error err => ([], some err)
    | Except.ok rs => latticeLoop angle_start angle_end w rs

/-- Modelled from the spec: the displacement sign pattern of section 4.1 read
off the spec text, namely 0, +, 0, -, 0, +, ... over the point indices of the
zigzag sub-path.  In closed form the sign is +1 at indices congruent to 1
mod 4, -1 at indices congruent to 3 mod 4, and 0 at even indices.  This is
the refinement target that claim C5 compares with the displacement actually
performed by lines 60-66 of draw_zigzag.py. -/
def specDisplacementSign (i : ℕ) : ℝ :=
  if i % 4 = 1 then 1 else if i % 4 = 3 then -1 else 0

/-! ## Helper lemmas -/

theorem floor_eval {a : ℝ} {z : ℤ} (h1 : (z : ℝ) ≤ a) (h2 : a < z + 1) : ⌊a⌋ = z :=
  Int.floor_eq_iff.mpr ⟨h1, h2⟩

theorem hypot_eq_zero_iff (dx dy : ℝ) : hypot dx dy = 0 ↔ dx = 0 ∧ dy = 0 := by
  unfold hypot
  rw [Real.sqrt_eq_zero (by positivity)]
  constructor
  · intro hs
    have hx : dx ^ 2 = 0 := le_antisymm (by nlinarith [sq_nonneg dy]) (sq_nonneg dx)
    have hy : dy ^ 2 = 0 := le_antisymm (by nlinarith [sq_nonneg dx]) (sq_nonneg dy)
    exact ⟨pow_eq_zero_iff two_ne_zero |>.mp hx, pow_eq_zero_iff two_ne_zero |>.mp hy⟩
  · rintro ⟨rfl, rfl⟩
    norm_num

theorem hypot_nonneg (dx dy : ℝ) : 0 ≤ hypot dx dy :=
  Real.sqrt_nonneg _

theorem hypot_pair_ne_zero {start e : ℝ × ℝ} (h : start ≠ e) :
    hypot (e.1 - start.1) (e.2 - start.2) ≠ 0 := by
  intro h0
  rw [hypot_eq_zero_iff] at h0
  exact h (Prod.ext_iff.mpr ⟨by linarith [h0.1], by linarith [h0.2]⟩)

theorem draw_zigzag_ok (start e : ℝ × ℝ) (pitch fraction_zigzag amplitude : ℝ)
    (hp : pitch ≠ 0) (hs : start ≠ e) :
    draw_zigzag start e pitch fraction_zigzag amplitude =
      Except.ok (fullPath start e pitch fraction_zigzag amplitude) := by
  unfold draw_zigzag
  rw [if_neg hp, if_neg (hypot_pair_ne_zero hs)]

theorem linspace_length (a b : ℝ) (n : ℕ) : (linspace a b n).length = n := by
  rw [linspace, List.length_map, List.length_range]

theorem linspaceNoEnd_length (a b : ℝ) (n : ℕ) : (linspaceNoEnd a b n).length = n := by
  rw [linspaceNoEnd, List.length_map, List.length_range]

theorem nHalf_eq_max (start e : ℝ × ℝ) (pitch fraction_zigzag : ℝ) :
    nHalf start e pitch fraction_zigzag =
      max 1 ⌊lZig start e fraction_zigzag / pitch⌋ := by
  simp only [nHalf]
  split <;> omega

theorem one_le_nHalf (start e : ℝ × ℝ) (pitch fraction_zigzag : ℝ) :
    1 ≤ nHalf start e pitch fraction_zigzag := by
  rw [nHalf_eq_max]; exact le_max_left _ _

theorem zigBaseline_length (start e : ℝ × ℝ) (pitch fraction_zigzag : ℝ) :
    (zigBaseline start e pitch fraction_zigzag).length =
      numPointsZig start e pitch fraction_zigzag := by
  rw [zigBaseline, List.length_map, linspace_length]

theorem zigPoints_length (start e : ℝ × ℝ) (pitch fraction_zigzag amplitude : ℝ) :
    (zigPoints start e pitch fraction_zigzag amplitude).length =
      numPointsZig start e pitch fraction_zigzag := by
  rw [zigPoints, List.length_map, List.enum_length, zigBaseline_length]

theorem leftPoints_length (start e : ℝ × ℝ) (fraction_zigzag : ℝ) :
    (leftPoints start e fraction_zigzag).length = 5 := by
  rw [leftPoints, List.length_map, linspace_length]

theorem rightPoints_length (start e : ℝ × ℝ) (fraction_zigzag : ℝ) :
    (rightPoints start e fraction_zigzag).length = 5 := by
  rw [rightPoints, List.length_map, linspace_length]

theorem fullPath_length (start e : ℝ × ℝ) (pitch fraction_zigzag amplitude : ℝ) :
    (fullPath start e pitch fraction_zigzag amplitude).length =
      (nHalf start e pitch fraction_zigzag).toNat + 9 := by
  have h1 := leftPoints_length start e fraction_zigzag
  have h2 := zigPoints_length start e pitch fraction_zigzag amplitude
  have h3 := rightPoints_length start e fraction_zigzag
  simp only [fullPath, List.length_append, List.length_dropLast, List.length_tail,
    h1, h2, h3, numPointsZig]
  omega

theorem range_map_getLast? {α : Type} (f : ℕ → α) (n : ℕ) :
    ((List.range (n + 1)).map f).getLast? = some (f n) := by
  rw [List.range_succ, List.map_append]
  simp

theorem nHalf_of_neg_pitch (start e : ℝ × ℝ) (pitch fraction_zigzag : ℝ)
    (hp : pitch < 0) : nHalf start e pitch fraction_zigzag = 1 := by
  have hz : lZig start e fraction_zigzag / pitch ≤ 0 :=
    div_nonpos_iff.mpr (Or.inl ⟨hypot_nonneg _ _, hp.le⟩)
  have hf : ⌊lZig start e fraction_zigzag / pitch⌋ ≤ 0 := Int.floor_nonpos hz
  rw [nHalf_eq_max]
  omega

theorem rValues_eq (r_in r_out h : ℝ) (hne : h ≠ 0) (n : ℕ)
    (hn : (numRings r_in r_out h + 1).toNat = n + 1) :
    rValues r_in r_out h =
      Except.ok
        (if r_in + (n : ℝ) * h < r_out
         then ((List.range (n + 1)).map (fun i : ℕ => r_in + (i : ℝ) * h)) ++ [r_out]
         else (List.range (n + 1)).map (fun i : ℕ => r_in + (i : ℝ) * h)) := by
  unfold rValues
  rw [if_neg hne]
  simp only [hn, range_map_getLast?]

theorem ringDraws_zeroDivision (angle_start angle_end w r1 r2 : ℝ)
    (h0 : w / rMid r1 r2 ≠ 0) (hn : nArc angle_start angle_end w r1 r2 = 0) :
    ringDraws angle_start angle_end w r1 r2 =
      ([Stroke.arc (arcPts r1 angle_start angle_end),
        Stroke.arc (arcPts r2 angle_start angle_end)], some PyError.zeroDivisionError) := by
  unfold ringDraws
  rw [if_neg h0, if_pos hn]

theorem ringDraws_negative_samples (angle_start angle_end w r1 r2 : ℝ)
    (h0 : w / rMid r1 r2 ≠ 0) (hn : nArc angle_start angle_end w r1 r2 < 0) :
    ringDraws angle_start angle_end w r1 r2 =
      ([Stroke.arc (arcPts r1 angle_start angle_end),
        Stroke.arc (arcPts r2 angle_start angle_end)],
       some (PyError.valueError "Number of samples must be non-negative")) := by
  unfold ringDraws
  rw [if_neg h0, if_neg (show ¬ nArc angle_start angle_end w r1 r2 = 0 by omega), if_pos hn]

theorem latticeLoop_cons_error (angle_start angle_end w r1 r2 : ℝ) (rest : List ℝ)
    (ops : List Stroke) (err : PyError)
    (hr : ringDraws angle_start angle_end w r1 r2 = (ops, some err)) :
    latticeLoop angle_start angle_end w (r1 :: r2 :: rest) = (ops, some err) := by
  simp only [latticeLoop, hr]

theorem plot_lattice_hex_loop (r_in r_out h w angle_start angle_end : ℝ)
    (ha : ¬ angle_start ≥ angle_end) (rs : List ℝ)
    (hrv : rValues r_in r_out h = Except.ok rs) :
    plot_lattice_hex r_in r_out h w angle_start angle_end =
      latticeLoop angle_start angle_end w rs := by
  unfold plot_lattice_hex
  rw [if_neg ha, hrv]

theorem numRings_one_two_one : numRings 1 2 1 = 1 := by
  unfold numRings
  rw [show ((2 : ℝ) - 1) / 1 = 1 by norm_num]
  exact floor_eval (by norm_num) (by norm_num)

theorem rValues_one_two_one : rValues (1 : ℝ) 2 1 = Except.ok [1, 2] := by
  rw [rValues_eq 1 2 1 (by norm_num) 1 (by rw [numRings_one_two_one]; decide)]
  rw [if_neg (by norm_num)]
  simp [List.range_succ]
  norm_num

theorem plotLattice_w2_eval :
    plot_lattice_hex 1 2 1 2 0 1 =
      ([Stroke.arc (arcPts 1 0 1), Stroke.arc (arcPts 2 0 1)],
       some PyError.zeroDivisionError) := by
  have hm : rMid (1 : ℝ) 2 = 3/2 := by unfold rMid; norm_num
  have hdt : (2 : ℝ) / rMid 1 2 ≠ 0 := by rw [hm]; norm_num
  have hn : nArc 0 1 2 (1 : ℝ) 2 = 0 := by
    unfold nArc
    rw [hm, show ((1 : ℝ) - 0) / (2 / (3/2)) = 3/4 by norm_num]
    exact floor_eval (by norm_num) (by norm_num)
  rw [plot_lattice_hex_loop 1 2 1 2 0 1 (by norm_num) [1, 2] rValues_one_two_one,
    latticeLoop_cons_error 0 1 2 1 2 [] _ _ (ringDraws_zeroDivision 0 1 2 1 2 hdt hn)]

theorem plotLattice_wneg_eval :
    plot_lattice_hex 1 2 1 (-1) 0 1 =
      ([Stroke.arc (arcPts 1 0 1), Stroke.arc (arcPts 2 0 1)],
       some (PyError.valueError "Number of samples must be non-negative")) := by
  have hm : rMid (1 : ℝ) 2 = 3/2 := by unfold rMid; norm_num
  have hdt : (-1 : ℝ) / rMid 1 2 ≠ 0 := by rw [hm]; norm_num
  have hn : nArc 0 1 (-1) (1 : ℝ) 2 < 0 := by
    unfold nArc
    rw [hm, show ((1 : ℝ) - 0) / ((-1) / (3/2)) = -(3/2) by norm_num]
    rw [show (-(3/2) : ℝ) = ((-2 : ℤ) : ℝ) + 1/2 by norm_num]
    have : ⌊((-2 : ℤ) : ℝ) + 1/2⌋ = -2 := by
      rw [show ((-2 : ℤ) : ℝ) + 1/2 = -(3/2) by norm_num]
      exact floor_eval (by norm_num) (by norm_num)
    omega
  rw [plot_lattice_hex_loop 1 2 1 (-1) 0 1 (by norm_num) [1, 2] rValues_one_two_one,
    latticeLoop_cons_error 0 1 (-1) 1 2 [] _ _ (ringDraws_negative_samples 0 1 (-1) 1 2 hdt hn)]

theorem lZig_example : lZig ((0 : ℝ), (0 : ℝ)) ((1 : ℝ), (0 : ℝ)) (1/2) = 1/2 := by
  unfold lZig pZigEnd pZigStart straightFrac hypot
  norm_num
  rw [show (4 : ℝ) = 2 ^ 2 by norm_num, Real.sqrt_sq (by norm_num : (0 : ℝ) ≤ 2)]
  norm_num

theorem numRings_clamped_example : numRings 1 2 (3/10) = 3 := by
  unfold numRings
  rw [show ((2 : ℝ) - 1) / (3/10) = 10/3 by norm_num]
  exact floor_eval (by norm_num) (by norm_num)

theorem rValues_ring_radii (r_in r_out h : ℝ) (hr : r_in < r_out) (hh : 0 < h) :
    rValues r_in r_out h =
      Except.ok
        (if r_in + ((numRings r_in r_out h : ℤ) : ℝ) * h < r_out
         then ((List.range ((numRings r_in r_out h).toNat + 1)).map
                 (fun i : ℕ => r_in + (i : ℝ) * h)) ++ [r_out]
         else (List.range ((numRings r_in r_out h).toNat + 1)).map
                 (fun i : ℕ => r_in + (i : ℝ) * h)) ∧
    ∀ l, rValues r_in r_out h = Except.ok l → l.getLast? = some r_out := by
  have hne : h ≠ 0 := ne_of_gt hh
  have hN0 : 0 ≤ numRings r_in r_out h :=
    Int.floor_nonneg.mpr (le_of_lt (div_pos (by linarith) hh))
  have htn : (numRings r_in r_out h + 1).toNat = (numRings r_in r_out h).toNat + 1 := by
    omega
  have hcast : (((numRings r_in r_out h).toNat : ℕ) : ℝ) = ((numRings r_in r_out h : ℤ) : ℝ) := by
    exact_mod_cast Int.toNat_of_nonneg hN0
  have hle : r_in + ((numRings r_in r_out h : ℤ) : ℝ) * h ≤ r_out := by
    have h1 : ((numRings r_in r_out h : ℤ) : ℝ) ≤ (r_out - r_in) / h := Int.floor_le _
    have h2 : ((numRings r_in r_out h : ℤ) : ℝ) * h ≤ (r_out - r_in) / h * h :=
      mul_le_mul_of_nonneg_right h1 hh.le
    rw [div_mul_cancel₀ _ hne] at h2
    linarith
  have heq := rValues_eq r_in r_out h hne (numRings r_in r_out h).toNat htn
  rw [hcast] at heq
  refine ⟨heq, ?_⟩
  intro l hl
  rw [heq] at hl
  injection hl with hl
  subst hl
  split
  · exact List.getLast?_concat _
  · rename_i hge
    rw [range_map_getLast?, hcast]
    have hlast : r_in + ((numRings r_in r_out h : ℤ) : ℝ) * h = r_out :=
      le_antisymm hle (le_of_not_lt hge)
    rw [hlast]

/-! ## Claims -/

/-- C2: for every call of plot_lattice_hex with r_in less than r_out and
positive h, the ring boundary radii are the arithmetic sequence r_in,
r_in + h, ..., r_in + floor((r_out - r_in)/h) * h, with r_out appended as an
extra clamped boundary exactly when the last regular radius falls short of
r_out, so the outermost radius always equals r_out exactly; for r_in = 1,
r_out = 2, h = 3/10 the radii are [1, 13/10, 8/5, 19/10, 2]. -/
theorem c2_ring_boundary_radii :
    (∀ r_in r_out h : ℝ, r_in < r_out → 0 < h →
      rValues r_in r_out h =
        Except.ok
          (if r_in + ((numRings r_in r_out h : ℤ) : ℝ) * h < r_out
           then ((List.range ((numRings r_in r_out h).toNat + 1)).map
                   (fun i : ℕ => r_in + (i : ℝ) * h)) ++ [r_out]
           else (List.range ((numRings r_in r_out h).toNat + 1)).map
                   (fun i : ℕ => r_in + (i : ℝ) * h)) ∧
      ∀ l, rValues r_in r_out h = Except.ok l → l.getLast? = some r_out) ∧
    rValues 1 2 (3/10) = Except.ok [1, 13/10, 8/5, 19/10, 2] := by
  refine ⟨fun r_in r_out h hr hh => rValues_ring_radii r_in r_out h hr hh, ?_⟩
  rw [rValues_eq 1 2 (3/10) (by norm_num) 3 (by rw [numRings_clamped_example]; decide)]
  rw [if_pos (by norm_num)]
  simp [List.range_succ]
  norm_num

theorem c2_ring_boundary_radii_witness :
    (1 : ℝ) < 2 ∧ (0 : ℝ) < 3/10 ∧
    (rValues 1 2 (3/10) =
        Except.ok
          (if (1 : ℝ) + ((numRings 1 2 (3/10) : ℤ) : ℝ) * (3/10) < 2
           then ((List.range ((numRings 1 2 (3/10)).toNat + 1)).map
                   (fun i : ℕ => (1 : ℝ) + (i : ℝ) * (3/10))) ++ [2]
           else (List.range ((numRings 1 2 (3/10)).toNat + 1)).map
                   (fun i : ℕ => (1 : ℝ) + (i : ℝ) * (3/10))) ∧
      ∀ l, rValues 1 2 (3/10) = Except.ok l → l.getLast? = some 2) :=
  ⟨by norm_num, by norm_num, c2_ring_boundary_radii.1 1 2 (3/10) (by norm_num) (by norm_num)⟩

/-- C3: for every input combination with angle_start at least angle_end,
plot_lattice_hex raises the invalid-range ValueError, and the check runs
before any computation or drawing: the stroke list is empty. -/
theorem c3_invalid_angle_range (r_in r_out h w angle_start angle_end : ℝ)
    (ha : angle_start ≥ angle_end) :
    plot_lattice_hex r_in r_out h w angle_start angle_end =
      ([], some (PyError.valueError "angle_start must be less than angle_end")) := by
  unfold plot_lattice_hex
  rw [if_pos ha]

theorem c3_invalid_angle_range_witness :
    (1 : ℝ) ≥ 1/2 ∧
    plot_lattice_hex 1 2 (1/2) (1/10) 1 (1/2) =
      ([], some (PyError.valueError "angle_start must be less than angle_end")) :=
  ⟨by norm_num, c3_invalid_angle_range 1 2 (1/2) (1/10) 1 (1/2) (by norm_num)⟩

/-- C6 counterexample: with fixed arc width w = 1 and fixed sector [0, 1],
the ring (1, 2) with mean radius 3/2 gets 1 strut while the ring (2, 3) with
the larger mean radius 5/2 gets 2 struts, so the ring with the larger mean
radius does not get at most as many struts as the smaller one: the count
grows with the mean radius instead of scaling inversely. -/
theorem c6_inverse_scaling_counterexample :
    rMid 1 2 < rMid 2 3 ∧
    nArc 0 1 1 1 2 = 1 ∧ nArc 0 1 1 2 3 = 2 ∧
    ¬ nArc 0 1 1 2 3 ≤ nArc 0 1 1 1 2 := by
  have h1 : nArc 0 1 1 (1 : ℝ) 2 = 1 := by
    unfold nArc rMid
    rw [show ((1 : ℝ) - 0) / (1 / ((1 + 2)/2)) = 3/2 by norm_num]
    exact floor_eval (by norm_num) (by norm_num)
  have h2 : nArc 0 1 1 (2 : ℝ) 3 = 2 := by
    unfold nArc rMid
    rw [show ((1 : ℝ) - 0) / (1 / ((2 + 3)/2)) = 5/2 by norm_num]
    exact floor_eval (by norm_num) (by norm_num)
  exact ⟨by unfold rMid; norm_num, h1, h2, by omega⟩

/-- C6 (amended): for fixed arc width w and fixed angular sector, the strut
count per ring is monotonically non-decreasing in the ring mean radius: of
two rings, the one with the larger mean radius gets at least as many struts,
because n_arc = floor(sector width * r_mid / w) grows with r_mid. -/
theorem c6_strut_count_monotone (angle_start angle_end w r1 r2 s1 s2 : ℝ)
    (ha : angle_start < angle_end) (hw : 0 < w)
    (_hm : 0 < rMid r1 r2) (hle : rMid r1 r2 ≤ rMid s1 s2) :
    nArc angle_start angle_end w r1 r2 ≤ nArc angle_start angle_end w s1 s2 := by
  apply Int.floor_le_floor
  rw [div_div_eq_mul_div, div_div_eq_mul_div]
  have hnum : (angle_end - angle_start) * rMid r1 r2 ≤
      (angle_end - angle_start) * rMid s1 s2 :=
    mul_le_mul_of_nonneg_left hle (by linarith)
  exact div_le_div_of_nonneg_right hnum hw.le

theorem c6_strut_count_monotone_witness :
    (0 : ℝ) < 1 ∧ (0 : ℝ) < 1 ∧ (0 : ℝ) < rMid 1 2 ∧ rMid (1 : ℝ) 2 ≤ rMid 2 3 ∧
    nArc 0 1 1 1 2 ≤ nArc 0 1 1 2 3 :=
  ⟨by norm_num, by norm_num, by unfold rMid; norm_num, by unfold rMid; norm_num,
   c6_strut_count_monotone 0 1 1 1 2 2 3 (by norm_num) (by norm_num)
     (by unfold rMid; norm_num) (by unfold rMid; norm_num)⟩

/-- C7 counterexample: draw_zigzag called with pitch = -1 does not fail at
all: it silently returns a plotted path of 10 points, so a non-positive
pitch does not cause a fast, clear error. -/
theorem c7_fail_fast_counterexample :
    draw_zigzag ((0 : ℝ), (0 : ℝ)) ((1 : ℝ), (0 : ℝ)) (-1) (1/2) (1/20) =
      Except.ok (fullPath ((0 : ℝ), (0 : ℝ)) ((1 : ℝ), (0 : ℝ)) (-1) (1/2) (1/20)) ∧
    (fullPath ((0 : ℝ), (0 : ℝ)) ((1 : ℝ), (0 : ℝ)) (-1) (1/2) (1/20)).length = 10 := by
  refine ⟨draw_zigzag_ok _ _ _ _ _ (by norm_num) (by simp [Prod.ext_iff]), ?_⟩
  rw [fullPath_length, nHalf_of_neg_pitch _ _ _ _ (by norm_num)]
  decide

/-- C7 (amended): neither function validates pitch or arc width up front.
draw_zigzag with negative pitch silently clamps n_half to 1 and plots a
degenerate 10-point path; plot_lattice_hex with negative w raises only in
the middle of the first ring iteration, after the two boundary arcs of that
ring are already drawn. -/
theorem c7_no_input_validation :
    (∀ (start e : ℝ × ℝ) (pitch fraction_zigzag amplitude : ℝ),
      pitch < 0 → start ≠ e →
      nHalf start e pitch fraction_zigzag = 1 ∧
      ∃ l, draw_zigzag start e pitch fraction_zigzag amplitude = Except.ok l ∧
        l.length = 10) ∧
    plot_lattice_hex 1 2 1 (-1) 0 1 =
      ([Stroke.arc (arcPts 1 0 1), Stroke.arc (arcPts 2 0 1)],
       some (PyError.valueError "Number of samples must be non-negative")) := by
  refine ⟨?_, plotLattice_wneg_eval⟩
  intro start e pitch fraction_zigzag amplitude hp hs
  refine ⟨nHalf_of_neg_pitch start e pitch fraction_zigzag hp, _,
    draw_zigzag_ok start e pitch fraction_zigzag amplitude (ne_of_lt hp) hs, ?_⟩
  rw [fullPath_length, nHalf_of_neg_pitch start e pitch fraction_zigzag hp]
  decide

theorem c7_no_input_validation_witness :
    (-1 : ℝ) < 0 ∧ ((0 : ℝ), (0 : ℝ)) ≠ ((1 : ℝ), (0 : ℝ)) ∧
    (nHalf ((0 : ℝ), (0 : ℝ)) ((1 : ℝ), (0 : ℝ)) (-1) (1/2) = 1 ∧
      ∃ l, draw_zigzag ((0 : ℝ), (0 : ℝ)) ((1 : ℝ), (0 : ℝ)) (-1) (1/2) (1/20) =
          Except.ok l ∧
        l.length = 10) :=
  ⟨by norm_num, by simp [Prod.ext_iff],
   c7_no_input_validation.1 _ _ _ _ _ (by norm_num) (by simp [Prod.ext_iff])⟩

/-- C8 counterexample: plot_lattice_hex with r_in = 1, r_out = 2, h = 1,
w = 2 on the sector [0, 1] draws the two boundary arcs of the only ring and
then raises (n_arc = 0 makes line 49 divide by zero), so a call can draw a
partial result and then fail. -/
theorem c8_atomicity_counterexample :
    (plot_lattice_hex 1 2 1 2 0 1).1 ≠ [] ∧
    (plot_lattice_hex 1 2 1 2 0 1).2.isSome = true := by
  rw [plotLattice_w2_eval]
  exact ⟨by simp, rfl⟩

/-- C8 (amended): the angle-range check does fail before any drawing, but
the generators are not atomic in general: a ring whose target arc width
exceeds the sector arc length (n_arc = 0) has its two boundary arcs drawn
and then the call fails, leaving a partial result. -/
theorem c8_partial_draw_on_failure :
    (∀ r_in r_out h w angle_start angle_end : ℝ, angle_start ≥ angle_end →
      plot_lattice_hex r_in r_out h w angle_start angle_end =
        ([], some (PyError.valueError "angle_start must be less than angle_end"))) ∧
    plot_lattice_hex 1 2 1 2 0 1 =
      ([Stroke.arc (arcPts 1 0 1), Stroke.arc (arcPts 2 0 1)],
       some PyError.zeroDivisionError) := by
  refine ⟨?_, plotLattice_w2_eval⟩
  intro r_in r_out h w angle_start angle_end ha
  unfold plot_lattice_hex
  rw [if_pos ha]

theorem c8_partial_draw_on_failure_witness :
    (1 : ℝ) ≥ 1/2 ∧
    plot_lattice_hex 2 3 (1/2) (1/10) 1 (1/2) =
      ([], some (PyError.valueError "angle_start must be less than angle_end")) :=
  ⟨by norm_num, c8_partial_draw_on_failure.1 2 3 (1/2) (1/10) 1 (1/2) (by norm_num)⟩

/-- C1: for every call of draw_zigzag with start distinct from end (and a
valid positive pitch), the plotted polyline begins exactly at start and ends
exactly at end. -/
theorem c1_endpoints (start e : ℝ × ℝ) (pitch fraction_zigzag amplitude : ℝ)
    (hs : start ≠ e) (hp : 0 < pitch) :
    ∃ l, draw_zigzag start e pitch fraction_zigzag amplitude = Except.ok l ∧
      l.head? = some start ∧ l.getLast? = some e := by
  refine ⟨_, draw_zigzag_ok start e pitch fraction_zigzag amplitude (ne_of_gt hp) hs, ?_, ?_⟩
  · have h5 : List.range 5 = [0, 1, 2, 3, 4] := by decide
    simp [fullPath, leftPoints, linspace, h5]
  · have h5 : List.range 5 = [0, 1, 2, 3, 4] := by decide
    have hnil : (rightPoints start e fraction_zigzag).tail ≠ [] := by
      simp [rightPoints, linspace, h5]
    rw [fullPath, List.getLast?_append_of_ne_nil _ hnil]
    simp [rightPoints, linspace, h5, List.getLast?_cons_cons]

theorem c1_endpoints_witness :
    ((0 : ℝ), (0 : ℝ)) ≠ ((1 : ℝ), (0 : ℝ)) ∧ (0 : ℝ) < 1 ∧
    ∃ l, draw_zigzag ((0 : ℝ), (0 : ℝ)) ((1 : ℝ), (0 : ℝ)) 1 (1/2) (1/10) = Except.ok l ∧
      l.head? = some ((0 : ℝ), (0 : ℝ)) ∧ l.getLast? = some ((1 : ℝ), (0 : ℝ)) :=
  ⟨by simp [Prod.ext_iff], by norm_num,
   c1_endpoints ((0 : ℝ), (0 : ℝ)) ((1 : ℝ), (0 : ℝ)) 1 (1/2) (1/10) (by simp [Prod.ext_iff]) (by norm_num)⟩

/-- C4: for every call of draw_zigzag with start distinct from end and
positive pitch, the zigzag sub-path has exactly n_half + 1 baseline points,
where n_half = max(1, floor(L_zig / pitch)); in the example of the spec
(start (0,0), end (1,0), pitch 1/4, fraction_zigzag 1/2) the zigzag region
spans x from 1/4 to 3/4, n_half = 2, and there are 3 baseline points. -/
theorem c4_baseline_count :
    (∀ (start e : ℝ × ℝ) (pitch fraction_zigzag : ℝ), start ≠ e → 0 < pitch →
      (zigBaseline start e pitch fraction_zigzag).length =
        (max 1 ⌊lZig start e fraction_zigzag / pitch⌋).toNat + 1) ∧
    pZigStart ((0 : ℝ), (0 : ℝ)) ((1 : ℝ), (0 : ℝ)) (1/2) = ((1/4 : ℝ), (0 : ℝ)) ∧
    pZigEnd ((0 : ℝ), (0 : ℝ)) ((1 : ℝ), (0 : ℝ)) (1/2) = ((3/4 : ℝ), (0 : ℝ)) ∧
    nHalf ((0 : ℝ), (0 : ℝ)) ((1 : ℝ), (0 : ℝ)) (1/4) (1/2) = 2 ∧
    (zigBaseline ((0 : ℝ), (0 : ℝ)) ((1 : ℝ), (0 : ℝ)) (1/4) (1/2)).length = 3 := by
  have hn : nHalf ((0 : ℝ), (0 : ℝ)) ((1 : ℝ), (0 : ℝ)) (1/4) (1/2) = 2 := by
    rw [nHalf_eq_max, lZig_example, show ((1 : ℝ)/2) / (1/4) = 2 by norm_num,
      show ((2 : ℝ) : ℝ) = ((2 : ℤ) : ℝ) by norm_num, Int.floor_intCast]
    decide
  refine ⟨?_, ?_, ?_, hn, ?_⟩
  · intro start e pitch fraction_zigzag _ _
    rw [zigBaseline_length, numPointsZig, nHalf_eq_max]
  · unfold pZigStart straightFrac
    norm_num
  · unfold pZigEnd straightFrac
    norm_num
  · rw [zigBaseline_length, numPointsZig, hn]
    decide

theorem c4_baseline_count_witness :
    ((0 : ℝ), (0 : ℝ)) ≠ ((1 : ℝ), (0 : ℝ)) ∧ (0 : ℝ) < 1/4 ∧
    (zigBaseline ((0 : ℝ), (0 : ℝ)) ((1 : ℝ), (0 : ℝ)) (1/4) (1/2)).length =
      (max 1 ⌊lZig ((0 : ℝ), (0 : ℝ)) ((1 : ℝ), (0 : ℝ)) (1/2) / (1/4)⌋).toNat + 1 :=
  ⟨by simp [Prod.ext_iff], by norm_num, c4_baseline_count.1 _ _ _ _ (by simp [Prod.ext_iff]) (by norm_num)⟩

/-- C5: within the zigzag sub-path the perpendicular displacement of
magnitude amplitude is applied exactly at the odd-indexed points, with the
sign pattern 0, +, 0, -, 0, +, ... over the indices, that is, the sign of
the displacement at every index agrees with the closed form of the spec
(+1 at indices 1 mod 4, -1 at indices 3 mod 4, 0 at even indices). -/
theorem c5_displacement_pattern (start e : ℝ × ℝ)
    (pitch fraction_zigzag amplitude : ℝ) (i : ℕ) :
    (zigPoints start e pitch fraction_zigzag amplitude)[i]? =
      ((zigBaseline start e pitch fraction_zigzag)[i]?).map
        (fun p => (p.1 + amplitude * specDisplacementSign i * perpX start e,
                   p.2 + amplitude * specDisplacementSign i * perpY start e)) := by
  rw [zigPoints, List.getElem?_map, List.getElem?_enum]
  cases hq : (zigBaseline start e pitch fraction_zigzag)[i]? with
  | none => rfl
  | some p =>
    simp only [Option.map_some']
    congr 1
    by_cases h2 : i % 2 = 1
    · by_cases h4 : (i / 2) % 2 = 0
      · have hm : i % 4 = 1 := by omega
        simp [zigDisplace, specDisplacementSign, h2, h4, hm]
      · have hm : i % 4 = 3 := by omega
        simp [zigDisplace, specDisplacementSign, h2, h4, hm]
    · have hm1 : ¬ i % 4 = 1 := by omega
      have hm3 : ¬ i % 4 = 3 := by omega
      simp [zigDisplace, specDisplacementSign, h2, hm1, hm3]

/-- C9 counterexample: with start == end and pitch == 0 the function does not
return normally: line 42 converts L_zig / pitch == NaN to int, which raises
ValueError, so there is a call with start == end that raises. -/
theorem c9_zero_length_counterexample :
    draw_zigzag ((0 : ℝ), (0 : ℝ)) ((0 : ℝ), (0 : ℝ)) 0 (1/2) (1/10) =
      Except.error (PyError.valueError "cannot convert float NaN to integer") := by
  have h0 : lZig ((0 : ℝ), (0 : ℝ)) ((0 : ℝ), (0 : ℝ)) (1/2) = 0 := by
    unfold lZig pZigEnd pZigStart straightFrac hypot
    norm_num
  unfold draw_zigzag
  rw [if_pos rfl, if_pos h0]

/-- C9 (amended): for every call of draw_zigzag with start == end and
nonzero pitch, the function draws nothing and returns normally; the early
return of line 55 fires before the perpendicular direction is computed, so
no division by the zero total length is performed. -/
theorem c9_zero_length_noop (start e : ℝ × ℝ) (pitch fraction_zigzag amplitude : ℝ)
    (hs : start = e) (hp : pitch ≠ 0) :
    draw_zigzag start e pitch fraction_zigzag amplitude = Except.ok [] := by
  subst hs
  have h0 : hypot (start.1 - start.1) (start.2 - start.2) = 0 := by
    simp [hypot]
  unfold draw_zigzag
  rw [if_neg hp, if_pos h0]

theorem c9_zero_length_noop_witness :
    ((2 : ℝ), (3 : ℝ)) = ((2 : ℝ), (3 : ℝ)) ∧ (1 : ℝ) ≠ 0 ∧
    draw_zigzag ((2 : ℝ), (3 : ℝ)) ((2 : ℝ), (3 : ℝ)) 1 (1/2) (1/10) = Except.ok [] :=
  ⟨rfl, by norm_num, c9_zero_length_noop _ _ _ _ _ rfl (by norm_num)⟩

/-- C10: for every call of draw_zigzag with start distinct from end (and a
pitch on which the int conversion of line 42 does not raise), the plotted
path is the lead-in samples with the last dropped (4 points), then the
n_half + 1 zigzag samples, then the lead-out samples with the first dropped
(4 points): n_half + 9 points in total, each junction appearing once. -/
theorem c10_point_count (start e : ℝ × ℝ) (pitch fraction_zigzag amplitude : ℝ)
    (hs : start ≠ e) (hp : pitch ≠ 0) :
    ∃ l, draw_zigzag start e pitch fraction_zigzag amplitude = Except.ok l ∧
      l = (leftPoints start e fraction_zigzag).dropLast
            ++ zigPoints start e pitch fraction_zigzag amplitude
            ++ (rightPoints start e fraction_zigzag).tail ∧
      (leftPoints start e fraction_zigzag).dropLast.length = 4 ∧
      (zigPoints start e pitch fraction_zigzag amplitude).length =
        (nHalf start e pitch fraction_zigzag).toNat + 1 ∧
      (rightPoints start e fraction_zigzag).tail.length = 4 ∧
      l.length = (nHalf start e pitch fraction_zigzag).toNat + 9 := by
  refine ⟨_, draw_zigzag_ok start e pitch fraction_zigzag amplitude hp hs, rfl, ?_, ?_, ?_,
    fullPath_length start e pitch fraction_zigzag amplitude⟩
  · rw [List.length_dropLast, leftPoints_length]
  · rw [zigPoints_length, numPointsZig]
  · rw [List.length_tail, rightPoints_length]

theorem c10_point_count_witness :
    ((0 : ℝ), (0 : ℝ)) ≠ ((1 : ℝ), (0 : ℝ)) ∧ (1 : ℝ) ≠ 0 ∧
    ∃ l, draw_zigzag ((0 : ℝ), (0 : ℝ)) ((1 : ℝ), (0 : ℝ)) 1 (1/2) (1/10) = Except.ok l ∧
      l = (leftPoints ((0 : ℝ), (0 : ℝ)) ((1 : ℝ), (0 : ℝ)) (1/2)).dropLast
            ++ zigPoints ((0 : ℝ), (0 : ℝ)) ((1 : ℝ), (0 : ℝ)) 1 (1/2) (1/10)
            ++ (rightPoints ((0 : ℝ), (0 : ℝ)) ((1 : ℝ), (0 : ℝ)) (1/2)).tail ∧
      (leftPoints ((0 : ℝ), (0 : ℝ)) ((1 : ℝ), (0 : ℝ)) (1/2)).dropLast.length = 4 ∧
      (zigPoints ((0 : ℝ), (0 : ℝ)) ((1 : ℝ), (0 : ℝ)) 1 (1/2) (1/10)).length =
        (nHalf ((0 : ℝ), (0 : ℝ)) ((1 : ℝ), (0 : ℝ)) 1 (1/2)).toNat + 1 ∧
      (rightPoints ((0 : ℝ), (0 : ℝ)) ((1 : ℝ), (0 : ℝ)) (1/2)).tail.length = 4 ∧
      l.length = (nHalf ((0 : ℝ), (0 : ℝ)) ((1 : ℝ), (0 : ℝ)) 1 (1/2)).toNat + 9 :=
  ⟨by simp [Prod.ext_iff], by norm_num, c10_point_count _ _ _ _ _ (by simp [Prod.ext_iff]) (by norm_num)⟩

end
